import Mathlib

/-!
# TripVault — verification of the client-side photo ingestion pipeline

Shallow embedding of the TripVault web client's ingestion code:

* `previewDims` / `jsRound` embed the dimension computation of
  `makePhotoPreviewBlob` (decode, downscale to a bounded longer side,
  re-encode) from `App.tsx`.
* `scanLocalFolderPhotosOnly` embeds the observable behaviour of the
  identically named scan routine from `App.tsx`: album preview reset and
  URL revocation, the directory-picker outcomes, the image filter, the
  up-front quota comparison, the per-item preview loop with its progress
  snapshots, and the surrounding try/catch.
* `sharedAlbumsOf` embeds the "Shared with me" duplicate collapsing of
  `ProfilePage.tsx` (a JS `Map` keyed by album id, insertion order kept,
  last write per key wins).

Machine numbers are modelled as `Nat`; the JavaScript `Math.round` of a
non-negative ratio is modelled exactly on rationals via `jsRound`.
-/

/-- One enumerated file: name, declared MIME type and byte size
(`readDirHandle` yields `File` objects carrying exactly these facts that
the scan observes). -/
structure FileEntry where
  name : String
  mime : String
  size : Nat
deriving DecidableEq

/-- ASCII lower-casing of one character (the extensions the filter tests
are all ASCII). -/
def asciiLower (c : Char) : Char :=
  if 65 ≤ c.toNat ∧ c.toNat ≤ 90 then Char.ofNat (c.toNat + 32) else c

/-- Is the first character list a prefix of the second? -/
def charListPrefix : List Char → List Char → Bool
  | [], _ => true
  | _ :: _, [] => false
  | a :: as, b :: bs => a == b && charListPrefix as bs

/-- Does the first character list end with the second? -/
def charListEndsWith (s suf : List Char) : Bool :=
  charListPrefix suf.reverse s.reverse

/-- Case-insensitive extension test embedding the regex
`/\.(jpg|jpeg|png|webp)$/i` from the photo filter. -/
def hasPhotoExt (name : String) : Bool :=
  let l := name.toList.map asciiLower
  charListEndsWith l ".jpg".toList || charListEndsWith l ".jpeg".toList ||
    charListEndsWith l ".png".toList || charListEndsWith l ".webp".toList

/-- The photo filter of the scan:
`file.type.startsWith("image/") || /\.(jpg|jpeg|png|webp)$/i.test(file.name)`. -/
def isPhotoFile (f : FileEntry) : Bool :=
  charListPrefix "image/".toList f.mime.toList || hasPhotoExt f.name

/-- The candidate list actually processed: `items.filter(isPhoto)`. -/
def photosOf (items : List FileEntry) : List FileEntry :=
  items.filter isPhotoFile

/-- JavaScript `Math.round (num / den)` for non-negative integers:
round half up, i.e. `⌊num/den + 1/2⌋ = (2*num + den) / (2*den)` in
integer division. -/
def jsRound (num den : Nat) : Nat :=
  (2 * num + den) / (2 * den)

/-- Dimension computation of `makePhotoPreviewBlob`: scale so the longer
side is at most `maxSide`, preserving aspect ratio by rounding the other
side, and leave images that already fit untouched. -/
def previewDims (maxSide w h : Nat) : Nat × Nat :=
  if w > h ∧ w > maxSide then
    (maxSide, jsRound (h * maxSide) w)
  else if h ≥ w ∧ h > maxSide then
    (jsRound (w * maxSide) h, maxSide)
  else
    (w, h)

/-- The constant `maxSide = 1280` used by `makePhotoPreviewBlob`. -/
def appMaxSide : Nat := 1280

/-- `makePhotoPreviewBlob`'s output dimensions at the app's constant. -/
def makePhotoPreviewDims (w h : Nat) : Nat × Nat :=
  previewDims appMaxSide w h

/-- Branch relation of the scaling computation, one constructor per arm of
the `if / else if / else` in `makePhotoPreviewBlob`.  Stated as a relation
so that determinism (no randomness in the computation) is a theorem rather
than a definitional triviality. -/
inductive ScaleStep (M : Nat) : Nat → Nat → Nat × Nat → Prop where
  | scaleByWidth (w h : Nat) : w > h ∧ w > M →
      ScaleStep M w h (M, jsRound (h * M) w)
  | scaleByHeight (w h : Nat) : ¬(w > h ∧ w > M) → h ≥ w ∧ h > M →
      ScaleStep M w h (jsRound (w * M) h, M)
  | keep (w h : Nat) : ¬(w > h ∧ w > M) → ¬(h ≥ w ∧ h > M) →
      ScaleStep M w h (w, h)

/-- One locally stored preview: `{ name, url, size }` as pushed into
`previewUrls`. -/
structure PreviewUrl where
  name : String
  url : String
  size : Nat
deriving DecidableEq

/-- `LocalAlbum` from `App.tsx`. -/
structure LocalAlbum where
  id : String
  title : String
  createdAt : String
  originalBytes : Nat
  previewBytes : Nat
  itemsScanned : Nat
  previewUrls : List PreviewUrl
deriving DecidableEq

/-- Placeholder album used as the `getD` default when indexing album
lists. -/
def noAlbum : LocalAlbum :=
  ⟨"", "", "", 0, 0, 0, []⟩

/-- The `scanStats` record of `App.tsx`. -/
structure ScanStats where
  totalFiles : Nat
  doneFiles : Nat
  totalBytes : Nat
  doneBytes : Nat
  originalBytes : Nat
  previewBytes : Nat
deriving DecidableEq

/-- The all-zero `scanStats` value the scan resets to. -/
def zeroStats : ScanStats :=
  ⟨0, 0, 0, 0, 0, 0⟩

/-- Pointwise order on the progress counters of two snapshots. -/
def StatsLe (s t : ScanStats) : Prop :=
  s.doneFiles ≤ t.doneFiles ∧ s.doneBytes ≤ t.doneBytes

instance : DecidablePred fun p : ScanStats × ScanStats => StatsLe p.1 p.2 :=
  fun _ => instDecidableAnd

/-- Observable quota/storage events of one scan run.  The code only ever
emits `localQuotaCheck` (the client-side batch comparison) and
`storePreview` (a preview durably kept in client state); `reserveQuota` is
the atomic backend reservation the specification talks about and is part
of the event alphabet so that its absence from every run is expressible. -/
inductive ScanEvent where
  | localQuotaCheck (totalBytes quotaBytes : Nat) (pass : Bool)
  | storePreview (name : String) (size : Nat)
  | reserveQuota (delta : Nat)
deriving DecidableEq

/-- Is this event the atomic backend reservation? -/
def isReserveEvent : ScanEvent → Bool
  | ScanEvent.reserveQuota _ => true
  | _ => false

/-- Is this event a stored preview (a client-side write)? -/
def isStoreEvent : ScanEvent → Bool
  | ScanEvent.storePreview _ _ => true
  | _ => false

/-- Does the event list contain a store? -/
def hasStoreEvent : List ScanEvent → Bool
  | [] => false
  | e :: rest => isStoreEvent e || hasStoreEvent rest

/-- Does a local quota comparison happen with a write occurring later?
This is exactly the check-then-act pattern the specification forbids. -/
def localCheckThenWrite : List ScanEvent → Bool
  | [] => false
  | ScanEvent.localQuotaCheck _ _ _ :: rest =>
      hasStoreEvent rest || localCheckThenWrite rest
  | _ :: rest => localCheckThenWrite rest

/-- Outcome of `window.showDirectoryPicker()`: the user cancelled
(`AbortError`), the platform denied or interrupted traversal (any other
exception, carrying its message), or a directory snapshot was produced. -/
inductive PickerOutcome where
  | cancelled
  | denied (msg : String)
  | picked (items : List FileEntry)

/-- Environment of one scan run: the picker outcome, the rendition
renderer (`makePhotoPreviewBlob`, returning the encoded blob size or the
thrown error message) and the selected quota. -/
structure ScanEnv where
  picker : PickerOutcome
  render : FileEntry → Except String Nat
  quotaBytes : Nat

/-- Mutable counters closed over the scan loop. -/
structure ItemAcc where
  doneBytes : Nat
  doneFiles : Nat
  originalBytes : Nat
  previewBytes : Nat
  urlCount : Nat
deriving DecidableEq

/-- Everything the per-item loop produces: the successive `setScanStats`
snapshots, the successive `setScanProgress` percentages, the pushed
preview URLs, the emitted events, the final counters, and the first
thrown error if any (which, as in the source, stops the loop). -/
structure LoopOut where
  stats : List ScanStats
  pcts : List Nat
  previews : List PreviewUrl
  events : List ScanEvent
  acc : ItemAcc
  err : Option String
deriving DecidableEq

/-- Derived progress percentage:
`totalBytes ? Math.round((doneBytes / totalBytes) * 100) : 0`. -/
def scanPct (doneBytes totalBytes : Nat) : Nat :=
  if totalBytes = 0 then 0 else jsRound (100 * doneBytes) totalBytes

/-- Modelled from the spec's words (§4.8): the derived percentage is
`round(bytes_done / bytes_seen * 100)`, defined as 0 when `bytes_seen`
is 0.  Used only to compare against the code's `scanPct`. -/
def specRoundPercent (doneBytes totalBytes : Nat) : ℤ :=
  if totalBytes = 0 then 0
  else round ((doneBytes : ℚ) / (totalBytes : ℚ) * 100)

/-- The `for (const { file } of photos)` loop body of
`scanLocalFolderPhotosOnly`, one item at a time: accumulate original
bytes, render the preview (a thrown error escapes the loop), push the
object URL, bump the done counters, publish progress and stats. -/
def runItems (render : FileEntry → Except String Nat) (tf tb : Nat) :
    List FileEntry → ItemAcc → LoopOut
  | [], acc => ⟨[], [], [], [], acc, none⟩
  | f :: rest, acc =>
    let acc0 : ItemAcc := { acc with originalBytes := acc.originalBytes + f.size }
    match render f with
    | Except.error msg => ⟨[], [], [], [], acc0, some msg⟩
    | Except.ok psize =>
      let acc1 : ItemAcc :=
        ⟨acc0.doneBytes + f.size, acc0.doneFiles + 1, acc0.originalBytes,
          acc0.previewBytes + psize, acc0.urlCount + 1⟩
      let snap : ScanStats :=
        ⟨tf, acc1.doneFiles, tb, acc1.doneBytes, acc1.originalBytes, acc1.previewBytes⟩
      let out := runItems render tf tb rest acc1
      ⟨snap :: out.stats, scanPct acc1.doneBytes tb :: out.pcts,
        ⟨f.name, "blob:" ++ toString acc0.urlCount, psize⟩ :: out.previews,
        ScanEvent.storePreview f.name psize :: out.events, out.acc, out.err⟩

/-- The pre-loop `setAlbums` updater: for the scanned album, revoke and
clear `previewUrls`; other albums untouched. -/
def resetAlbums (albumId : String) (albums : List LocalAlbum) : List LocalAlbum :=
  albums.map fun a => if a.id = albumId then { a with previewUrls := [] } else a

/-- The object URLs revoked by the pre-loop updater: all previously stored
preview URLs of albums with the scanned id. -/
def revokedUrls (albumId : String) (albums : List LocalAlbum) : List String :=
  ((albums.filter fun a => a.id == albumId).map
    fun a => a.previewUrls.map fun p => p.url).flatten

/-- The post-loop `setAlbums` updater: store the accumulated byte counts,
item count and preview list on the scanned album; other albums
untouched. -/
def applyScanResult (albumId : String) (ob pb n : Nat) (pv : List PreviewUrl)
    (albums : List LocalAlbum) : List LocalAlbum :=
  albums.map fun a =>
    if a.id = albumId then
      { a with originalBytes := ob, previewBytes := pb,
               itemsScanned := n, previewUrls := pv }
    else a

/-- Observable result of one `scanLocalFolderPhotosOnly` run. -/
structure ScanResult where
  albums : List LocalAlbum
  alert : Option String
  statsTrace : List ScanStats
  progressTrace : List Nat
  events : List ScanEvent
  revoked : List String
deriving DecidableEq

/-- Shallow embedding of `scanLocalFolderPhotosOnly`: reset progress,
revoke and clear the target album's previews, open the picker (user
cancellation is the silently swallowed `AbortError`; any other exception
is alerted), filter to photos, compare the batch's total original bytes
against the quota once up front (aborting the whole run on failure),
then run the per-item loop and finally store the results on the target
album. -/
def scanLocalFolderPhotosOnly (env : ScanEnv) (albumId : String)
    (albums0 : List LocalAlbum) : ScanResult :=
  let rev := revokedUrls albumId albums0
  let albums1 := resetAlbums albumId albums0
  match env.picker with
  | PickerOutcome.cancelled =>
      ⟨albums1, none, [zeroStats], [0], [], rev⟩
  | PickerOutcome.denied msg =>
      ⟨albums1, some msg, [zeroStats], [0], [], rev⟩
  | PickerOutcome.picked items =>
      let photos := photosOf items
      let totalBytes := (photos.map FileEntry.size).sum
      if totalBytes > env.quotaBytes then
        ⟨albums1, some "Quota exceeded", [zeroStats], [0],
          [ScanEvent.localQuotaCheck totalBytes env.quotaBytes false], rev⟩
      else
        let preSnap : ScanStats := ⟨photos.length, 0, totalBytes, 0, 0, 0⟩
        let out := runItems env.render photos.length totalBytes photos ⟨0, 0, 0, 0, 0⟩
        let evs := ScanEvent.localQuotaCheck totalBytes env.quotaBytes true :: out.events
        match out.err with
        | some msg =>
            ⟨albums1, some msg, zeroStats :: preSnap :: out.stats,
              0 :: out.pcts, evs, rev⟩
        | none =>
            ⟨applyScanResult albumId out.acc.originalBytes out.acc.previewBytes
                photos.length out.previews albums1,
              none, zeroStats :: preSnap :: out.stats, 0 :: out.pcts, evs, rev⟩

/-- Running partial sums: `prefixSums [x₁, x₂, …] a = [a+x₁, a+x₁+x₂, …]`. -/
def prefixSums : List Nat → Nat → List Nat
  | [], _ => []
  | x :: xs, a => (a + x) :: prefixSums xs (a + x)

/-! ## ProfilePage: "Shared with me" duplicate collapsing -/

/-- `Album` from `domain.ts`. -/
structure AlbumRow where
  id : String
  owner_id : String
  title : String
  created_at : String
deriving DecidableEq

/-- One `album_members` row as selected by `ProfilePage` (`album_id, role,
albums(...)`): the joined album is `none` when the join produced no row. -/
structure MemberRow where
  album_id : String
  role : String
  albums : Option AlbumRow
deriving DecidableEq

/-- `SharedAlbum` = `Album & { my_role }`. -/
structure SharedAlbum where
  album : AlbumRow
  my_role : String
deriving DecidableEq

/-- `rows.filter(row => row.albums).map(row => ({...row.albums, my_role: row.role}))`. -/
def projectShared (rows : List MemberRow) : List SharedAlbum :=
  rows.filterMap fun r => r.albums.map fun a => SharedAlbum.mk a r.role

/-- JavaScript `Map.prototype.set` on an insertion-ordered association
list: an existing key keeps its position and gets the new value, a new
key is appended. -/
def mapSet (m : List (String × SharedAlbum)) (k : String) (v : SharedAlbum) :
    List (String × SharedAlbum) :=
  if m.any fun kv => kv.1 == k then
    m.map fun kv => if kv.1 == k then (k, v) else kv
  else m ++ [(k, v)]

/-- `const uniq = new Map(); for (const a of sharedAlbums) uniq.set(a.id, a)`. -/
def buildUniq (l : List SharedAlbum) : List (String × SharedAlbum) :=
  l.foldl (fun m a => mapSet m a.album.id a) []

/-- The list shown in "Shared with me": `Array.from(uniq.values())`. -/
def sharedAlbumsOf (rows : List MemberRow) : List SharedAlbum :=
  (buildUniq (projectShared rows)).map Prod.snd

/-- The last projected row whose album id is `k`, i.e. the row the claim
says must determine the displayed entry. -/
def lastWith (k : String) (l : List SharedAlbum) : Option SharedAlbum :=
  (l.filter fun a => a.album.id == k).getLast?

/-- Invariant tying the association list built so far to the prefix of
rows already processed: keys are distinct, every value is stored under its
own album id, and every stored value is the last processed row with that
id. -/
def UniqInv (m : List (String × SharedAlbum)) (processed : List SharedAlbum) : Prop :=
  (m.map Prod.fst).Nodup ∧
  (∀ kv ∈ m, kv.2.album.id = kv.1) ∧
  (∀ kv ∈ m, lastWith kv.1 processed = some kv.2)

/-! ## Concrete run inputs used by the evaluation theorems -/

/-- A 60-byte photo whose rendition is also 60 bytes. -/
def c1File : FileEntry := ⟨"a.jpg", "image/jpeg", 60⟩

/-- Environment for the C1 run: one photo, quota 100. -/
def c1Env : ScanEnv := ⟨PickerOutcome.picked [c1File], fun _ => Except.ok 60, 100⟩

/-- A plain target album. -/
def targetAlbum : LocalAlbum := ⟨"A", "trip", "t0", 0, 0, 0, []⟩

/-- A photo that fails to decode. -/
def c3Bad : FileEntry := ⟨"bad.jpg", "image/jpeg", 10⟩

/-- A photo that decodes fine. -/
def c3Good : FileEntry := ⟨"good.jpg", "image/jpeg", 20⟩

/-- Environment for the C3 run: the first photo's rendition throws, the
second renders to a 5-byte preview, quota is ample. -/
def c3Env : ScanEnv :=
  ⟨PickerOutcome.picked [c3Bad, c3Good],
    fun f => if f.name = "bad.jpg" then Except.error "decode failed" else Except.ok 5,
    1000⟩

/-- A 100-byte photo whose rendition is only 10 bytes. -/
def c4File : FileEntry := ⟨"b.jpg", "image/jpeg", 100⟩

/-- Environment for the C4 run: quota 50, which exceeds the rendition
size (10) but not the original size (100). -/
def c4Env : ScanEnv := ⟨PickerOutcome.picked [c4File], fun _ => Except.ok 10, 50⟩

/-- An 8-byte photo whose rendition is 4 bytes. -/
def c5File : FileEntry := ⟨"w.jpg", "image/jpeg", 8⟩

/-- Environment for the C5 witness run: one photo, ample quota. -/
def c5Env : ScanEnv := ⟨PickerOutcome.picked [c5File], fun _ => Except.ok 4, 100⟩

/-- An album that already holds one preview URL. -/
def c9AlbumA : LocalAlbum := ⟨"A", "t", "d", 1, 2, 3, [⟨"x", "u1", 5⟩]⟩

/-- A sibling album that must stay untouched. -/
def c9AlbumB : LocalAlbum := ⟨"B", "s", "d", 4, 5, 6, [⟨"y", "u2", 7⟩]⟩

/-- Environment for the C9 witness run: the picker is cancelled, so only
the pre-scan reset is observable. -/
def c9Env : ScanEnv := ⟨PickerOutcome.cancelled, fun _ => Except.ok 0, 7⟩

/-- A shared album row. -/
def c10AlbumX : AlbumRow := ⟨"X", "o1", "Goa", "d1"⟩

/-- Membership rows with a duplicate album id (roles read then write)
and one row whose join produced no album. -/
def c10Rows : List MemberRow :=
  [⟨"X", "read", some c10AlbumX⟩, ⟨"X", "write", some c10AlbumX⟩,
   ⟨"Y", "read", none⟩]

/-! ## Theorems -/

/-- C2. For every decodable image with dimensions `(w, h)` and max side
`M`, the rendition has both sides (hence its longer side) at most `M`,
the image is never scaled up, if both `w ≤ M` and `h ≤ M` the dimensions
are unchanged, and the aspect ratio is preserved up to the rounding of
one side (the cross products `p.1 * h` and `w * p.2` differ by at most
half the scaled-down side). -/
theorem c2_rendition_bound (M w h : Nat) :
    (previewDims M w h).1 ≤ M ∧ (previewDims M w h).2 ≤ M ∧
    (previewDims M w h).1 ≤ w ∧ (previewDims M w h).2 ≤ h ∧
    (w ≤ M → h ≤ M → previewDims M w h = (w, h)) ∧
    2 * ((((previewDims M w h).1 : ℤ) * (h : ℤ) -
        (w : ℤ) * ((previewDims M w h).2 : ℤ)).natAbs) ≤ max w h := by
  unfold previewDims jsRound
  split_ifs with hb1 hb2
  · obtain ⟨hwh, hwM⟩ := hb1
    dsimp only
    have hw : 0 < w := by omega
    set q : Nat := (2 * (h * M) + w) / (2 * w) with hq
    have hd : 2 * w * q + (2 * (h * M) + w) % (2 * w) = 2 * (h * M) + w :=
      Nat.div_add_mod _ _
    set r : Nat := (2 * (h * M) + w) % (2 * w) with hr
    have hm : r < 2 * w := Nat.mod_lt _ (by omega)
    have hp1 : h * M ≤ w * M := Nat.mul_le_mul_right M (Nat.le_of_lt hwh)
    have hp2 : h * M ≤ h * w := Nat.mul_le_mul_left h (Nat.le_of_lt hwM)
    have e1 : 2 * w * q ≤ 2 * (h * M) + w := by linarith
    have hqM : q ≤ M := by
      have e2 : 2 * (h * M) + w < 2 * w * (M + 1) := by nlinarith
      have := Nat.lt_of_mul_lt_mul_left (a := 2 * w) (lt_of_le_of_lt e1 e2)
      omega
    have hqh : q ≤ h := by
      have e2 : 2 * (h * M) + w < 2 * w * (h + 1) := by nlinarith
      have := Nat.lt_of_mul_lt_mul_left (a := 2 * w) (lt_of_le_of_lt e1 e2)
      omega
    refine ⟨le_refl M, hqM, Nat.le_of_lt hwM, hqh, ?_, ?_⟩
    · intro hx _
      exact absurd hx (by omega)
    · have hdz : (2 * w * q + r : ℤ) = 2 * (h * M) + w := by exact_mod_cast hd
      have hrz : (r : ℤ) < 2 * w := by exact_mod_cast hm
      have hrz0 : (0 : ℤ) ≤ r := Int.natCast_nonneg r
      have h2x : (2 : ℤ) * ((M : ℤ) * h - w * q) = (r : ℤ) - w := by
        linear_combination (-1 : ℤ) * hdz
      have habs : ((2 : ℤ) * ((M : ℤ) * h - w * q)).natAbs ≤ w := by
        rw [h2x]; omega
      calc 2 * (((M : ℤ) * h - (w : ℤ) * q).natAbs)
          = ((2 : ℤ) * ((M : ℤ) * h - w * q)).natAbs := by
            rw [Int.natAbs_mul]; rfl
        _ ≤ w := habs
        _ ≤ max w h := Nat.le_max_left w h
  · obtain ⟨hhw, hhM⟩ := hb2
    dsimp only
    have hh : 0 < h := by omega
    set q : Nat := (2 * (w * M) + h) / (2 * h) with hq
    have hd : 2 * h * q + (2 * (w * M) + h) % (2 * h) = 2 * (w * M) + h :=
      Nat.div_add_mod _ _
    set r : Nat := (2 * (w * M) + h) % (2 * h) with hr
    have hm : r < 2 * h := Nat.mod_lt _ (by omega)
    have hp1 : w * M ≤ h * M := Nat.mul_le_mul_right M hhw
    have hp2 : w * M ≤ w * h := Nat.mul_le_mul_left w (Nat.le_of_lt hhM)
    have e1 : 2 * h * q ≤ 2 * (w * M) + h := by linarith
    have hqM : q ≤ M := by
      have e2 : 2 * (w * M) + h < 2 * h * (M + 1) := by nlinarith
      have := Nat.lt_of_mul_lt_mul_left (a := 2 * h) (lt_of_le_of_lt e1 e2)
      omega
    have hqw : q ≤ w := by
      have e2 : 2 * (w * M) + h < 2 * h * (w + 1) := by nlinarith
      have := Nat.lt_of_mul_lt_mul_left (a := 2 * h) (lt_of_le_of_lt e1 e2)
      omega
    refine ⟨hqM, le_refl M, hqw, Nat.le_of_lt hhM, ?_, ?_⟩
    · intro _ hx
      exact absurd hx (by omega)
    · have hdz : (2 * h * q + r : ℤ) = 2 * (w * M) + h := by exact_mod_cast hd
      have hrz : (r : ℤ) < 2 * h := by exact_mod_cast hm
      have hrz0 : (0 : ℤ) ≤ r := Int.natCast_nonneg r
      have h2x : (2 : ℤ) * ((q : ℤ) * h - w * M) = (h : ℤ) - r := by
        linear_combination (1 : ℤ) * hdz
      have habs : ((2 : ℤ) * ((q : ℤ) * h - w * M)).natAbs ≤ h := by
        rw [h2x]; omega
      calc 2 * (((q : ℤ) * h - (w : ℤ) * M).natAbs)
          = ((2 : ℤ) * ((q : ℤ) * h - w * M)).natAbs := by
            rw [Int.natAbs_mul]; rfl
        _ ≤ h := habs
        _ ≤ max w h := Nat.le_max_right w h
  · dsimp only
    have hwM : w ≤ M := by omega
    have hhM : h ≤ M := by omega
    refine ⟨hwM, hhM, le_refl w, le_refl h, fun _ _ => rfl, ?_⟩
    have : ((w : ℤ) * h - (w : ℤ) * h).natAbs = 0 := by
      rw [sub_self]; rfl
    rw [this]
    exact Nat.zero_le _

/-- C2 witness: at concrete inputs, an image that already fits is kept
as-is, and an oversized landscape image is bounded by the max side. -/
theorem c2_rendition_bound_witness :
    previewDims 1280 800 600 = (800, 600) ∧ (previewDims 1280 2560 1920).1 ≤ 1280 := by
  exact ⟨(c2_rendition_bound 1280 800 600).2.2.2.2.1 (by decide) (by decide),
    (c2_rendition_bound 1280 2560 1920).1⟩

/-- C8. The scaling computation is deterministic: the branch relation
`ScaleStep` relates any input to at most one output (no randomness), and
`previewDims` — the function the renderer computes — realises it, so two
runs of the renderer on the same decoded dimensions and max side always
produce identical output dimensions. -/
theorem c8_scaling_deterministic (M w h : Nat) :
    (∀ p q, ScaleStep M w h p → ScaleStep M w h q → p = q) ∧
    ScaleStep M w h (previewDims M w h) := by
  constructor
  · intro p q hp hq
    cases hp with
    | scaleByWidth g1 =>
      cases hq with
      | scaleByWidth _ => rfl
      | scaleByHeight gn _ => exact absurd g1 gn
      | keep gn _ => exact absurd g1 gn
    | scaleByHeight gn1 g2 =>
      cases hq with
      | scaleByWidth g1 => exact absurd g1 gn1
      | scaleByHeight _ _ => rfl
      | keep _ gn2 => exact absurd g2 gn2
    | keep gn1 gn2 =>
      cases hq with
      | scaleByWidth g1 => exact absurd g1 gn1
      | scaleByHeight _ g2 => exact absurd g2 gn2
      | keep _ _ => rfl
  · unfold previewDims
    split_ifs with hb1 hb2
    · exact ScaleStep.scaleByWidth w h hb1
    · exact ScaleStep.scaleByHeight w h hb1 hb2
    · exact ScaleStep.keep w h hb1 hb2

/-- C8 witness: determinism applied at a concrete oversized landscape
image forces the unique output `(1280, 960)`. -/
theorem c8_scaling_deterministic_witness :
    previewDims 1280 2560 1920 = (1280, 960) := by
  exact (c8_scaling_deterministic 1280 2560 1920).1 _ _
    (c8_scaling_deterministic 1280 2560 1920).2
    (ScaleStep.scaleByWidth 2560 1920 (by decide))

/-- C6. The derived progress percentage computed by the scan equals the
specification's `round(bytes_done / bytes_seen * 100)` on exact
rationals, and is 0 when `bytes_seen` is 0. -/
theorem c6_percent_formula (d t : Nat) :
    ((scanPct d t : ℤ) = specRoundPercent d t) ∧ scanPct d 0 = 0 := by
  refine ⟨?_, rfl⟩
  unfold scanPct specRoundPercent jsRound
  by_cases ht : t = 0
  · subst ht; simp
  · rw [if_neg ht, if_neg ht]
    have htp : 0 < t := Nat.pos_of_ne_zero ht
    have htq : (0 : ℚ) < (t : ℚ) := by exact_mod_cast htp
    have key : (d : ℚ) / (t : ℚ) * 100 + 1 / 2 =
        ((2 * (100 * d) + t : ℕ) : ℚ) / ((2 * t : ℕ) : ℚ) := by
      push_cast
      field_simp
      ring
    rw [round_eq, key, ← Int.natCast_floor_eq_floor (by positivity),
      Nat.floor_div_eq_div]

/-- C7. A user-cancelled picker (`AbortError`) surfaces no alert, emits
no events and processes no items — it behaves as an empty candidate
sequence — while a platform-denied or interrupted traversal surfaces its
error message. -/
theorem c7_cancel_not_error (render : FileEntry → Except String Nat)
    (quota : Nat) (albumId msg : String) (albums0 : List LocalAlbum) :
    (scanLocalFolderPhotosOnly ⟨PickerOutcome.cancelled, render, quota⟩
        albumId albums0).alert = none ∧
    (scanLocalFolderPhotosOnly ⟨PickerOutcome.cancelled, render, quota⟩
        albumId albums0).events = [] ∧
    (scanLocalFolderPhotosOnly ⟨PickerOutcome.cancelled, render, quota⟩
        albumId albums0).statsTrace = [zeroStats] ∧
    (scanLocalFolderPhotosOnly ⟨PickerOutcome.denied msg, render, quota⟩
        albumId albums0).alert = some msg :=
  ⟨rfl, rfl, rfl, rfl⟩

/-- C1 (code evaluation). On a concrete run — one 60-byte photo whose
rendition is 60 bytes, quota 100 — the scan performs a client-local
quota comparison that is later followed by a write (the check-then-act
pattern the claim says never happens), performs no atomic backend
reservation at all, and completes without error. -/
theorem c1_quota_check_is_local_not_atomic :
    localCheckThenWrite
        (scanLocalFolderPhotosOnly c1Env "A" [targetAlbum]).events = true ∧
    ((scanLocalFolderPhotosOnly c1Env "A" [targetAlbum]).events.filter
        isReserveEvent) = [] ∧
    (scanLocalFolderPhotosOnly c1Env "A" [targetAlbum]).alert = none := by
  decide

/-- C3 (code evaluation). With a batch of two photos where only the
first fails to decode, the whole run aborts with that error: no preview
is ever stored (in particular none for the second, perfectly renderable
photo — witnessed by the final conjunct) and the progress trace shows
zero completed items, so the second item never reaches a terminal
outcome. -/
theorem c3_first_failure_aborts_run :
    (scanLocalFolderPhotosOnly c3Env "A" [targetAlbum]).alert =
        some "decode failed" ∧
    ((scanLocalFolderPhotosOnly c3Env "A" [targetAlbum]).events.filter
        isStoreEvent) = [] ∧
    ((scanLocalFolderPhotosOnly c3Env "A" [targetAlbum]).statsTrace.map
        fun s => s.doneFiles) = [0, 0] ∧
    c3Env.render c3Good = Except.ok 5 :=
  ⟨by decide, by decide, by decide, rfl⟩

/-- C4 (code evaluation). With one 100-byte photo whose rendition is
only 10 bytes and a 50-byte quota, the run is rejected by a single
up-front comparison of the batch's total original bytes (100) against
the quota — before anything is rendered — even though the rendition
size (10, the delta the claim says is charged) fits the quota. -/
theorem c4_quota_uses_original_batch_bytes :
    (scanLocalFolderPhotosOnly c4Env "A" [targetAlbum]).events =
        [ScanEvent.localQuotaCheck 100 50 false] ∧
    (scanLocalFolderPhotosOnly c4Env "A" [targetAlbum]).alert =
        some "Quota exceeded" ∧
    c4Env.render c4File = Except.ok 10 ∧
    c4File.size = 100 ∧ c4Env.quotaBytes = 50 :=
  ⟨by decide, by decide, rfl, rfl, rfl⟩

/-- If every item in the list renders successfully, the loop finishes
without a thrown error. -/
theorem runItems_err_eq_none (render : FileEntry → Except String Nat)
    (tf tb : Nat) :
    ∀ (l : List FileEntry) (acc : ItemAcc),
      (∀ f ∈ l, ∃ n, render f = Except.ok n) →
      (runItems render tf tb l acc).err = none := by
  intro l
  induction l with
  | nil => intro acc _; rfl
  | cons f rest ih =>
    intro acc hok
    obtain ⟨n, hn⟩ := hok f (List.mem_cons_self f rest)
    simp only [runItems, hn]
    exact ih _ fun g hg => hok g (List.mem_cons_of_mem f hg)

/-- On an error-free run the `doneFiles` column of the emitted snapshots
is the running count, one increment per item. -/
theorem runItems_stats_doneFiles (render : FileEntry → Except String Nat)
    (tf tb : Nat) :
    ∀ (l : List FileEntry) (acc : ItemAcc),
      (∀ f ∈ l, ∃ n, render f = Except.ok n) →
      ((runItems render tf tb l acc).stats.map fun s => s.doneFiles) =
        prefixSums (l.map fun _ => 1) acc.doneFiles := by
  intro l
  induction l with
  | nil => intro acc _; rfl
  | cons f rest ih =>
    intro acc hok
    obtain ⟨n, hn⟩ := hok f (List.mem_cons_self f rest)
    simp only [runItems, hn, List.map_cons, prefixSums]
    exact congrArg (List.cons (acc.doneFiles + 1))
      (ih _ fun g hg => hok g (List.mem_cons_of_mem f hg))

/-- On an error-free run the `doneBytes` column of the emitted snapshots
is the running sum of original sizes, one addition per item. -/
theorem runItems_stats_doneBytes (render : FileEntry → Except String Nat)
    (tf tb : Nat) :
    ∀ (l : List FileEntry) (acc : ItemAcc),
      (∀ f ∈ l, ∃ n, render f = Except.ok n) →
      ((runItems render tf tb l acc).stats.map fun s => s.doneBytes) =
        prefixSums (l.map FileEntry.size) acc.doneBytes := by
  intro l
  induction l with
  | nil => intro acc _; rfl
  | cons f rest ih =>
    intro acc hok
    obtain ⟨n, hn⟩ := hok f (List.mem_cons_self f rest)
    simp only [runItems, hn, List.map_cons, prefixSums]
    exact congrArg (List.cons (acc.doneBytes + f.size))
      (ih _ fun g hg => hok g (List.mem_cons_of_mem f hg))

/-- The snapshots emitted by the loop are chained under the counter
order, starting from any snapshot below the running counters — whether
or not the loop aborts on an error. -/
theorem runItems_chain (render : FileEntry → Except String Nat) (tf tb : Nat) :
    ∀ (l : List FileEntry) (acc : ItemAcc) (s : ScanStats),
      s.doneFiles ≤ acc.doneFiles → s.doneBytes ≤ acc.doneBytes →
      List.Chain StatsLe s (runItems render tf tb l acc).stats := by
  intro l
  induction l with
  | nil => intro acc s _ _; exact List.Chain.nil
  | cons f rest ih =>
    intro acc s hf hb
    cases hn : render f with
    | error msg =>
      simp only [runItems, hn]
      exact List.Chain.nil
    | ok n =>
      simp only [runItems, hn]
      exact List.Chain.cons
        ⟨Nat.le_succ_of_le hf, le_trans hb (Nat.le_add_right _ _)⟩
        (ih _ _ (Nat.le_refl _) (Nat.le_refl _))

/-- The last element of a cons-ed prefix-sum list is the total. -/
theorem prefixSums_cons_getLast? :
    ∀ (l : List Nat) (a : Nat),
      (a :: prefixSums l a).getLast? = some (a + l.sum) := by
  intro l
  induction l with
  | nil => intro a; simp [prefixSums]
  | cons x xs ih =>
    intro a
    simp only [prefixSums, List.getLast?_cons_cons]
    rw [ih (a + x)]
    simp [Nat.add_assoc]

/-- Summing the constant-1 image of a list counts its elements. -/
theorem sum_map_one (l : List FileEntry) :
    (l.map fun _ => (1 : Nat)).sum = l.length := by
  induction l with
  | nil => rfl
  | cons f rest ih => simp [ih, Nat.add_comm]

/-- C5. For every run, the progress snapshots are monotonically
non-decreasing in `files_done` and `bytes_done`; and whenever the picker
yields a batch that passes the quota gate and every photo renders, each
item bumps the counters exactly once (the columns are exactly the
running prefix counts/sums over the photo list) and at completion
`files_done` equals the number of photos seen and `bytes_done` equals
the total original bytes seen. -/
theorem c5_progress_monotone_complete (env : ScanEnv) (albumId : String)
    (albums0 : List LocalAlbum) :
    List.Chain' StatsLe
      (scanLocalFolderPhotosOnly env albumId albums0).statsTrace ∧
    (∀ items, env.picker = PickerOutcome.picked items →
      (∀ f ∈ photosOf items, ∃ n, env.render f = Except.ok n) →
      ((photosOf items).map FileEntry.size).sum ≤ env.quotaBytes →
      (((scanLocalFolderPhotosOnly env albumId albums0).statsTrace.map
          fun s => s.doneFiles) =
        0 :: 0 :: prefixSums ((photosOf items).map fun _ => 1) 0) ∧
      (((scanLocalFolderPhotosOnly env albumId albums0).statsTrace.map
          fun s => s.doneBytes) =
        0 :: 0 :: prefixSums ((photosOf items).map FileEntry.size) 0) ∧
      (((scanLocalFolderPhotosOnly env albumId albums0).statsTrace.map
          fun s => s.doneFiles).getLast? = some (photosOf items).length) ∧
      (((scanLocalFolderPhotosOnly env albumId albums0).statsTrace.map
          fun s => s.doneBytes).getLast? =
        some ((photosOf items).map FileEntry.size).sum)) := by
  obtain ⟨pk, render, quota⟩ := env
  cases pk with
  | cancelled =>
    refine ⟨List.chain'_singleton zeroStats, ?_⟩
    intro items hitems
    cases hitems
  | denied msg =>
    refine ⟨List.chain'_singleton zeroStats, ?_⟩
    intro items hitems
    cases hitems
  | picked items0 =>
    by_cases hq : ((photosOf items0).map FileEntry.size).sum > quota
    · have htr : (scanLocalFolderPhotosOnly
          ⟨PickerOutcome.picked items0, render, quota⟩ albumId
          albums0).statsTrace = [zeroStats] := by
        simp [scanLocalFolderPhotosOnly, hq]
      refine ⟨htr ▸ List.chain'_singleton zeroStats, ?_⟩
      intro items hitems hok hqle
      injection hitems with h
      subst h
      have hqle2 : ((photosOf items0).map FileEntry.size).sum ≤ quota := hqle
      exact absurd hqle2 (by omega)
    · cases hout : (runItems render (photosOf items0).length
          ((photosOf items0).map FileEntry.size).sum (photosOf items0)
          ⟨0, 0, 0, 0, 0⟩).err with
      | some msg =>
        have htr : (scanLocalFolderPhotosOnly
            ⟨PickerOutcome.picked items0, render, quota⟩ albumId
            albums0).statsTrace =
            zeroStats ::
              (⟨(photosOf items0).length, 0,
                ((photosOf items0).map FileEntry.size).sum, 0, 0, 0⟩ : ScanStats) ::
              (runItems render (photosOf items0).length
                ((photosOf items0).map FileEntry.size).sum (photosOf items0)
                ⟨0, 0, 0, 0, 0⟩).stats := by
          simp [scanLocalFolderPhotosOnly, hq, hout]
        refine ⟨?_, ?_⟩
        · rw [htr]
          exact List.Chain'.cons ⟨Nat.le_refl 0, Nat.le_refl 0⟩
            (runItems_chain render _ _ _ _ _ (Nat.le_refl 0) (Nat.le_refl 0))
        · intro items hitems hok hqle
          injection hitems with h
          subst h
          have hnone := runItems_err_eq_none render (photosOf items0).length
            ((photosOf items0).map FileEntry.size).sum (photosOf items0)
            ⟨0, 0, 0, 0, 0⟩ hok
          rw [hnone] at hout
          cases hout
      | none =>
        have htr : (scanLocalFolderPhotosOnly
            ⟨PickerOutcome.picked items0, render, quota⟩ albumId
            albums0).statsTrace =
            zeroStats ::
              (⟨(photosOf items0).length, 0,
                ((photosOf items0).map FileEntry.size).sum, 0, 0, 0⟩ : ScanStats) ::
              (runItems render (photosOf items0).length
                ((photosOf items0).map FileEntry.size).sum (photosOf items0)
                ⟨0, 0, 0, 0, 0⟩).stats := by
          simp [scanLocalFolderPhotosOnly, hq, hout]
        refine ⟨?_, ?_⟩
        · rw [htr]
          exact List.Chain'.cons ⟨Nat.le_refl 0, Nat.le_refl 0⟩
            (runItems_chain render _ _ _ _ _ (Nat.le_refl 0) (Nat.le_refl 0))
        · intro items hitems hok hqle
          injection hitems with h
          subst h
          have h1 : ((scanLocalFolderPhotosOnly
              ⟨PickerOutcome.picked items0, render, quota⟩ albumId
              albums0).statsTrace.map fun s => s.doneFiles) =
              0 :: 0 :: prefixSums ((photosOf items0).map fun _ => 1) 0 := by
            rw [htr]
            simp only [List.map_cons]
            rw [runItems_stats_doneFiles render _ _ _ _ hok]
            rfl
          have h2 : ((scanLocalFolderPhotosOnly
              ⟨PickerOutcome.picked items0, render, quota⟩ albumId
              albums0).statsTrace.map fun s => s.doneBytes) =
              0 :: 0 :: prefixSums ((photosOf items0).map FileEntry.size) 0 := by
            rw [htr]
            simp only [List.map_cons]
            rw [runItems_stats_doneBytes render _ _ _ _ hok]
            rfl
          refine ⟨h1, h2, ?_, ?_⟩
          · rw [h1, List.getLast?_cons_cons, prefixSums_cons_getLast?]
            simp [sum_map_one]
          · rw [h2, List.getLast?_cons_cons, prefixSums_cons_getLast?]
            simp

/-- C5 witness: on a concrete one-photo run the snapshot trace is
monotone and the final snapshot reports one completed file. -/
theorem c5_progress_monotone_complete_witness :
    List.Chain' StatsLe
      (scanLocalFolderPhotosOnly c5Env "A" [targetAlbum]).statsTrace ∧
    (((scanLocalFolderPhotosOnly c5Env "A" [targetAlbum]).statsTrace.map
        fun s => s.doneFiles).getLast? = some 1) := by
  have h := c5_progress_monotone_complete c5Env "A" [targetAlbum]
  have h2 := h.2 [c5File] rfl (fun f _ => ⟨4, rfl⟩) (by decide)
  exact ⟨h.1, h2.2.2.1.trans (by decide)⟩

/-- Indexing a list mapped by a function that fixes every album whose id
differs from the scanned one does not change entries at such indices. -/
theorem getD_map_fix (aid : String) (g : LocalAlbum → LocalAlbum)
    (hg : ∀ a, a.id ≠ aid → g a = a) (l : List LocalAlbum) (i : Nat)
    (hi : (l.getD i noAlbum).id ≠ aid) :
    (l.map g).getD i noAlbum = l.getD i noAlbum := by
  rcases h0 : l[i]? with _ | a
  · have hlen : l.length ≤ i := List.getElem?_eq_none_iff.mp h0
    have h1 : (l.map g)[i]? = none :=
      List.getElem?_eq_none (by simpa using hlen)
    simp [List.getD_eq_getElem?_getD, h0, h1]
  · have h1 : (l.map g)[i]? = some (g a) := by
      rw [List.getElem?_map, h0]; rfl
    have ha : a.id ≠ aid := by
      rw [List.getD_eq_getElem?_getD, h0] at hi
      exact hi
    simp [List.getD_eq_getElem?_getD, h0, h1, hg a ha]

/-- Every scan run revokes exactly the target album's previously stored
preview URLs, regardless of how the run ends. -/
theorem scan_revoked_eq (env : ScanEnv) (aid : String)
    (al0 : List LocalAlbum) :
    (scanLocalFolderPhotosOnly env aid al0).revoked = revokedUrls aid al0 := by
  obtain ⟨pk, render, quota⟩ := env
  cases pk with
  | cancelled => rfl
  | denied msg => rfl
  | picked items =>
    by_cases hq : ((photosOf items).map FileEntry.size).sum > quota
    · simp [scanLocalFolderPhotosOnly, hq]
    · cases hout : (runItems render (photosOf items).length
          ((photosOf items).map FileEntry.size).sum (photosOf items)
          ⟨0, 0, 0, 0, 0⟩).err with
      | some msg => simp [scanLocalFolderPhotosOnly, hq, hout]
      | none => simp [scanLocalFolderPhotosOnly, hq, hout]

/-- The final album list of any scan is the reset list, possibly further
updated at the scanned id only. -/
theorem scan_albums_cases (env : ScanEnv) (aid : String)
    (al0 : List LocalAlbum) :
    (scanLocalFolderPhotosOnly env aid al0).albums = resetAlbums aid al0 ∨
    ∃ ob pb n pv, (scanLocalFolderPhotosOnly env aid al0).albums =
      applyScanResult aid ob pb n pv (resetAlbums aid al0) := by
  obtain ⟨pk, render, quota⟩ := env
  cases pk with
  | cancelled => exact Or.inl rfl
  | denied msg => exact Or.inl rfl
  | picked items =>
    by_cases hq : ((photosOf items).map FileEntry.size).sum > quota
    · exact Or.inl (by simp [scanLocalFolderPhotosOnly, hq])
    · cases hout : (runItems render (photosOf items).length
          ((photosOf items).map FileEntry.size).sum (photosOf items)
          ⟨0, 0, 0, 0, 0⟩).err with
      | some msg => exact Or.inl (by simp [scanLocalFolderPhotosOnly, hq, hout])
      | none =>
        refine Or.inr
          ⟨(runItems render (photosOf items).length
              ((photosOf items).map FileEntry.size).sum (photosOf items)
              ⟨0, 0, 0, 0, 0⟩).acc.originalBytes,
            (runItems render (photosOf items).length
              ((photosOf items).map FileEntry.size).sum (photosOf items)
              ⟨0, 0, 0, 0, 0⟩).acc.previewBytes,
            (photosOf items).length,
            (runItems render (photosOf items).length
              ((photosOf items).map FileEntry.size).sum (photosOf items)
              ⟨0, 0, 0, 0, 0⟩).previews, ?_⟩
        simp [scanLocalFolderPhotosOnly, hq, hout]

/-- C9. Scanning into an album leaves every album whose id differs
unchanged (the album list keeps its length and all other positions keep
their exact previous value); the pre-scan reset empties the target
album's preview list; and the revoked object URLs are exactly the
target album's previously stored preview URLs. -/
theorem c9_scan_frame_and_reset (env : ScanEnv) (aid : String)
    (al0 : List LocalAlbum) :
    (scanLocalFolderPhotosOnly env aid al0).albums.length = al0.length ∧
    (∀ i : Nat, (al0.getD i noAlbum).id ≠ aid →
      (scanLocalFolderPhotosOnly env aid al0).albums.getD i noAlbum =
        al0.getD i noAlbum) ∧
    (∀ i : Nat, i < al0.length → (al0.getD i noAlbum).id = aid →
      ((resetAlbums aid al0).getD i noAlbum).previewUrls = []) ∧
    (∀ u : String, u ∈ (scanLocalFolderPhotosOnly env aid al0).revoked ↔
      ∃ a, a ∈ al0 ∧ a.id = aid ∧ ∃ p, p ∈ a.previewUrls ∧ p.url = u) := by
  have hreset : ∀ a : LocalAlbum, a.id ≠ aid →
      (if a.id = aid then { a with previewUrls := [] } else a) = a := by
    intro a ha; rw [if_neg ha]
  have happly : ∀ ob pb n pv, ∀ a : LocalAlbum, a.id ≠ aid →
      (if a.id = aid then
        { a with originalBytes := ob, previewBytes := pb,
                 itemsScanned := n, previewUrls := pv }
      else a) = a := by
    intro ob pb n pv a ha; rw [if_neg ha]
  refine ⟨?_, ?_, ?_, ?_⟩
  · rcases scan_albums_cases env aid al0 with hc | ⟨ob, pb, n, pv, hc⟩
    · rw [hc]; simp [resetAlbums]
    · rw [hc]; simp [applyScanResult, resetAlbums]
  · intro i hi
    rcases scan_albums_cases env aid al0 with hc | ⟨ob, pb, n, pv, hc⟩
    · rw [hc]
      exact getD_map_fix aid _ hreset al0 i hi
    · rw [hc]
      have h1 : (resetAlbums aid al0).getD i noAlbum = al0.getD i noAlbum :=
        getD_map_fix aid _ hreset al0 i hi
      have hi2 : ((resetAlbums aid al0).getD i noAlbum).id ≠ aid := by
        rw [h1]; exact hi
      calc (applyScanResult aid ob pb n pv (resetAlbums aid al0)).getD i noAlbum
          = (resetAlbums aid al0).getD i noAlbum :=
            getD_map_fix aid _ (happly ob pb n pv) (resetAlbums aid al0) i hi2
        _ = al0.getD i noAlbum := h1
  · intro i hlen hid
    rcases h0 : al0[i]? with _ | a
    · exact absurd (List.getElem?_eq_none_iff.mp h0) (by omega)
    · have h1 : (resetAlbums aid al0)[i]? =
          some (if a.id = aid then { a with previewUrls := [] } else a) := by
        unfold resetAlbums
        rw [List.getElem?_map, h0]
        rfl
      have ha : a.id = aid := by
        rw [List.getD_eq_getElem?_getD, h0] at hid
        exact hid
      rw [List.getD_eq_getElem?_getD, h1]
      simp [ha]
  · intro u
    rw [scan_revoked_eq]
    unfold revokedUrls
    simp only [List.mem_flatten, List.mem_map, List.mem_filter, beq_iff_eq]
    constructor
    · rintro ⟨l, ⟨a, ⟨ha, hid⟩, rfl⟩, hu⟩
      simp only [List.mem_map] at hu
      obtain ⟨p, hp, hpu⟩ := hu
      exact ⟨a, ha, hid, p, hp, hpu⟩
    · rintro ⟨a, ha, hid, p, hp, hpu⟩
      exact ⟨a.previewUrls.map fun p => p.url, ⟨a, ⟨ha, hid⟩, rfl⟩,
        List.mem_map.mpr ⟨p, hp, hpu⟩⟩

/-- C9 witness: on a concrete two-album list, scanning album `A` leaves
album `B`'s entry untouched, resets `A`'s preview list, and revokes
`A`'s stored URL. -/
theorem c9_scan_frame_and_reset_witness :
    (scanLocalFolderPhotosOnly c9Env "A" [c9AlbumA, c9AlbumB]).albums.getD 1 noAlbum
        = [c9AlbumA, c9AlbumB].getD 1 noAlbum ∧
    ((resetAlbums "A" [c9AlbumA, c9AlbumB]).getD 0 noAlbum).previewUrls = [] ∧
    "u1" ∈ (scanLocalFolderPhotosOnly c9Env "A" [c9AlbumA, c9AlbumB]).revoked := by
  refine ⟨(c9_scan_frame_and_reset c9Env "A" [c9AlbumA, c9AlbumB]).2.1 1 (by decide),
    (c9_scan_frame_and_reset c9Env "A" [c9AlbumA, c9AlbumB]).2.2.1 0 (by decide)
      (by decide),
    ((c9_scan_frame_and_reset c9Env "A" [c9AlbumA, c9AlbumB]).2.2.2 "u1").mpr
      ⟨c9AlbumA, by decide, rfl, ⟨"x", "u1", 5⟩, by decide, rfl⟩⟩

/-- Appending a row moves the "last row with this id" pointer to it
exactly when the ids match. -/
theorem lastWith_append (k : String) (l : List SharedAlbum) (a : SharedAlbum) :
    lastWith k (l ++ [a]) =
      if a.album.id == k then some a else lastWith k l := by
  unfold lastWith
  rw [List.filter_append]
  cases hb : a.album.id == k with
  | true => simp [hb, List.getLast?_concat]
  | false => simp [hb]

/-- One `uniq.set(a.id, a)` step preserves the association-list
invariant. -/
theorem uniqInv_step (m : List (String × SharedAlbum))
    (processed : List SharedAlbum) (a : SharedAlbum)
    (h : UniqInv m processed) :
    UniqInv (mapSet m a.album.id a) (processed ++ [a]) := by
  obtain ⟨hnodup, hkey, hlast⟩ := h
  unfold mapSet
  by_cases hany : (m.any fun kv => kv.1 == a.album.id) = true
  · rw [if_pos hany]
    refine ⟨?_, ?_, ?_⟩
    · have hkeys :
          ((m.map fun kv => if kv.1 == a.album.id then (a.album.id, a) else kv).map
            Prod.fst) = m.map Prod.fst := by
        rw [List.map_map]
        apply List.map_congr_left
        intro kv _
        by_cases hk : kv.1 = a.album.id
        · simp [hk]
        · simp [hk]
      rw [hkeys]
      exact hnodup
    · intro kv hkv
      simp only [List.mem_map] at hkv
      obtain ⟨kv0, hkv0, hEq⟩ := hkv
      by_cases hk : kv0.1 = a.album.id
      · rw [if_pos (by simp [hk])] at hEq
        subst hEq
        rfl
      · rw [if_neg (by simp [hk])] at hEq
        subst hEq
        exact hkey kv0 hkv0
    · intro kv hkv
      simp only [List.mem_map] at hkv
      obtain ⟨kv0, hkv0, hEq⟩ := hkv
      rw [lastWith_append]
      by_cases hk : kv0.1 = a.album.id
      · rw [if_pos (by simp [hk])] at hEq
        subst hEq
        simp
      · rw [if_neg (by simp [hk])] at hEq
        subst hEq
        rw [if_neg (by simp; exact fun hx => hk hx.symm)]
        exact hlast kv0 hkv0
  · rw [if_neg hany]
    have hnotin : ∀ kv ∈ m, kv.1 ≠ a.album.id := by
      intro kv hkv
      have h1 := List.any_eq_false.mp (Bool.eq_false_iff.mpr hany) kv hkv
      simpa using h1
    refine ⟨?_, ?_, ?_⟩
    · rw [List.map_append, List.nodup_append]
      refine ⟨hnodup, List.nodup_singleton _, ?_⟩
      intro x hx hx2
      simp only [List.mem_map] at hx
      obtain ⟨kv, hkv, rfl⟩ := hx
      have h2 : kv.1 = a.album.id := by simpa using hx2
      exact hnotin kv hkv h2
    · intro kv hkv
      rcases List.mem_append.mp hkv with h1 | h1
      · exact hkey kv h1
      · have h2 : kv = (a.album.id, a) := by simpa using h1
        subst h2
        rfl
    · intro kv hkv
      rw [lastWith_append]
      rcases List.mem_append.mp hkv with h1 | h1
      · rw [if_neg (by simp; exact fun hx => hnotin kv h1 hx.symm)]
        exact hlast kv h1
      · have h2 : kv = (a.album.id, a) := by simpa using h1
        subst h2
        simp

/-- Folding the whole row list through `uniq.set` keeps the invariant. -/
theorem uniqInv_foldl :
    ∀ (l : List SharedAlbum) (m : List (String × SharedAlbum))
      (processed : List SharedAlbum),
      UniqInv m processed →
      UniqInv (l.foldl (fun m a => mapSet m a.album.id a) m) (processed ++ l) := by
  intro l
  induction l with
  | nil => intro m p h; simpa using h
  | cons a rest ih =>
    intro m p h
    have h3 := ih _ _ (uniqInv_step m p a h)
    rw [List.foldl_cons]
    have he : (p ++ [a]) ++ rest = p ++ a :: rest := by simp
    rw [he] at h3
    exact h3

/-- C10. The "Shared with me" list contains at most one entry per album
id (the displayed ids are pairwise distinct), and every displayed entry
is exactly the last projected membership row with that album id — so
the last row's role wins. -/
theorem c10_shared_dedup_last_wins (rows : List MemberRow) :
    ((sharedAlbumsOf rows).map fun a => a.album.id).Nodup ∧
    (∀ x ∈ sharedAlbumsOf rows,
      lastWith x.album.id (projectShared rows) = some x) := by
  have h0 : UniqInv ([] : List (String × SharedAlbum)) ([] : List SharedAlbum) :=
    ⟨List.nodup_nil, fun kv h => absurd h (List.not_mem_nil kv),
      fun kv h => absurd h (List.not_mem_nil kv)⟩
  have hinv : UniqInv (buildUniq (projectShared rows)) (projectShared rows) := by
    have h1 := uniqInv_foldl (projectShared rows) [] [] h0
    simpa [buildUniq] using h1
  obtain ⟨hnodup, hkey, hlast⟩ := hinv
  constructor
  · have h2 : (sharedAlbumsOf rows).map (fun a => a.album.id) =
        (buildUniq (projectShared rows)).map Prod.fst := by
      unfold sharedAlbumsOf
      rw [List.map_map]
      exact List.map_congr_left fun kv hkv => hkey kv hkv
    rw [h2]
    exact hnodup
  · intro x hx
    unfold sharedAlbumsOf at hx
    simp only [List.mem_map] at hx
    obtain ⟨kv, hkv, rfl⟩ := hx
    rw [hkey kv hkv]
    exact hlast kv hkv

/-- C10 witness: with two membership rows for album `X` (roles read then
write) and one null-joined row, the displayed list has distinct ids and
the `X` entry carries the last row's role, `write`. -/
theorem c10_shared_dedup_last_wins_witness :
    ((sharedAlbumsOf c10Rows).map fun a => a.album.id).Nodup ∧
    lastWith (SharedAlbum.mk c10AlbumX "write").album.id (projectShared c10Rows)
      = some (SharedAlbum.mk c10AlbumX "write") :=
  ⟨(c10_shared_dedup_last_wins c10Rows).1,
    (c10_shared_dedup_last_wins c10Rows).2 ⟨c10AlbumX, "write"⟩ (by decide)⟩
